import Mathlib

/-!
Verification development for the toolbox-cache-generator repository
(src/main.py).  The Python program is shallowly embedded: read-only
filesystem and environment inputs become a `World` record of functions,
the process-wide memoisation of channel ids and the count of launcher
state-file reads become an explicit `RunState`, and Python exceptions
become `Except Err`.

Modelling conventions, stated once:
  * Paths are strings joined with "/"; `pathlib.PurePath(a, b, c)` is
    embedded as string concatenation with "/" separators, and
    construction/str round-trips are treated as the identity (no
    separator normalisation is modelled; the program never builds paths
    that need it).
  * `state.json` contents are modelled already decoded, as a list of
    `Tool` records; per the file format each tool record carries a
    toolId and a channelId string (main.py reads them with
    tool.get('toolId') / tool.get('channelId')).
  * `recentProjects.xml` contents are modelled already parsed, as the
    list of entry keys found at the XPath used by main.py, in document
    order; only the key attribute is consumed by the program.
  * `os.getenv`, directory existence (`Path.exists` / `Path.is_dir`),
    directory enumeration (`Path.glob('prefix*/')`, modelled as the
    OS-ordered list of immediate subdirectory names filtered by the
    prefix) and small file reads are table lookups in the `World`.
  * Python's `str.replace` is embedded as `pyReplace` (leftmost,
    non-overlapping, replace-all; the program only uses the non-empty
    pattern "$USER_HOME$").
  * `pathlib.Path.name` is embedded as `lastSegment` (last non-empty
    "/"-separated component).
  * The diagnostic `print` statements write to stdout only and are not
    modelled; the cache write is modelled by `main` returning the JSON
    value it writes, and `cacheAfterRun` gives the cache-file content
    after a run (an uncaught exception terminates the process before
    `write_text`, leaving any previous cache content in place).
-/

/-- The uncaught Python exceptions main.py can raise:
`EnvironmentError` from `getenv`, `FileNotFoundError` from
`toolbox_state`, and `RuntimeError` from `IdeInfo.channel_id`. -/
inductive Err where
  | envMissing : String → Err
  | stateNotFound : Err
  | ideNotFound : String → Err
deriving DecidableEq

/-- One record of the launcher state file's "tools" list (state.json). -/
structure Tool where
  toolId : String
  channelId : String
deriving DecidableEq

/-- Embeds class IdeInfo's immutable part: `tool_id` and
`folder_prefix` (the latter renamed to `folderStart` here). -/
structure IdeInfo where
  tool_id : String
  folderStart : String
deriving DecidableEq

/-- Embeds enum Ide: the fixed closed set of supported IDE kinds (the
ANDROID member embeds the source's Android Studio enum member). -/
inductive Ide where
  | PHPSTORM
  | RIDER
  | INTELLIJ_IDEA
  | ANDROID
deriving DecidableEq

/-- The IdeInfo payload of each Ide enum member. -/
def Ide.info : Ide → IdeInfo
  | .PHPSTORM => ⟨"PhpStorm", "PhpStorm"⟩
  | .RIDER => ⟨"Rider", "Rider"⟩
  | .INTELLIJ_IDEA => ⟨"IDEA-U", "IntelliJIdea"⟩
  | .ANDROID => ⟨"AndroidStudio", "AndroidStudio"⟩

/-- Iteration order of `for ide in Ide` (enum definition order). -/
def ideList : List Ide := [.PHPSTORM, .RIDER, .INTELLIJ_IDEA, .ANDROID]

/-- Embeds class NewOpenItem. -/
structure NewOpenItem where
  tool_id : String
  channel_id : String
deriving DecidableEq

/-- Embeds class Project.  The constructor invariant
`default_new_open_item = new_open_items[0].channel_id` is established
at the only construction site (in `buildProjects`). -/
structure Project where
  name : String
  path : String
  default_new_open_item : String
  new_open_items : List NewOpenItem
deriving DecidableEq

/-- The read-only inputs of one run: environment variables, the user's
home directory, the decoded launcher state files by path (none =
absent), directory existence, OS-ordered immediate subdirectory names,
decoded recentProjects.xml entry keys by path (none = absent), and
.idea/.name marker file contents by path (none = absent). -/
structure World where
  env : String → Option String
  home : String
  stateFiles : String → Option (List Tool)
  dirExists : String → Bool
  subdirs : String → List String
  xmlFiles : String → Option (List String)
  nameFiles : String → Option String

/-- The mutable process state: the per-IDE `_channel_id` memo (keyed by
tool_id, which is distinct across the four IdeInfo instances) and the
number of accesses to the launcher state file. -/
structure RunState where
  memo : List (String × String)
  stateReads : Nat
deriving DecidableEq

/-- Process start: every `IdeInfo._channel_id` is None, no reads yet. -/
def RunState.init : RunState := ⟨[], 0⟩

/-- Python `str.replace` kernel on character lists, driven by fuel
(initialised to the input length, which always suffices since each step
consumes at least one character).  Leftmost, non-overlapping,
replace-all.  An empty pattern returns the input unchanged (the program
only replaces the non-empty literal "$USER_HOME$"). -/
def repFuel (pat repl : List Char) : Nat → List Char → List Char
  | _, [] => []
  | 0, cs => cs
  | fuel + 1, c :: cs =>
    if pat.isPrefixOf (c :: cs) && !pat.isEmpty then
      repl ++ repFuel pat repl fuel (List.drop (pat.length - 1) cs)
    else
      c :: repFuel pat repl fuel cs

/-- Embeds Python `s.replace(pat, repl)`. -/
def pyReplace (s pat repl : String) : String :=
  String.mk (repFuel pat.data repl.data s.data.length s.data)

/-- Splits a character list on a separator character. -/
def splitChar (sep : Char) : List Char → List (List Char)
  | [] => [[]]
  | a :: as =>
    match splitChar sep as with
    | [] => [[a]]
    | g :: gs => if a = sep then [] :: g :: gs else (a :: g) :: gs

/-- Embeds `pathlib.PurePath.name`: the last non-empty "/"-separated
component of the path ("" when there is none). -/
def lastSegment (p : String) : String :=
  String.mk (((splitChar '/' p.data).filter (fun g => !g.isEmpty)).getLastD [])

/-- Embeds def getenv (main.py lines 77-83): `os.getenv(key, default)`
then raise EnvironmentError when the result is None.  Python's omitted
`default=None` argument is passed here explicitly as `none`. -/
def getenv (w : World) (key : String) (d : Option String) : Except Err String :=
  match w.env key with
  | some v => .ok v
  | none =>
    match d with
    | some dv => .ok dv
    | none => .error (.envMissing key)

/-- Embeds def toolbox_data_path (main.py lines 86-87):
PurePath(getenv('LOCALAPPDATA'), 'JetBrains', 'Toolbox', path). -/
def toolbox_data_path (w : World) (path : String) : Except Err String :=
  match getenv w "LOCALAPPDATA" none with
  | .error e => .error e
  | .ok la => .ok (la ++ "/JetBrains/Toolbox/" ++ path)

/-- Embeds def toolbox_state (main.py lines 90-108) at its only call
site, where `ide` is the tool_id string: resolve the state-file path,
fail with FileNotFoundError when the file is absent, otherwise return
the first tool record whose toolId equals `ide` (none when no record
matches).  The access is counted in `RunState.stateReads`. -/
def toolbox_state (w : World) (s : RunState) (ide : String) :
    Except Err (Option Tool × RunState) :=
  match toolbox_data_path w "state.json" with
  | .error e => .error e
  | .ok p =>
    match w.stateFiles p with
    | none => .error .stateNotFound
    | some state =>
      .ok (state.find? (fun t => t.toolId == ide),
           { s with stateReads := s.stateReads + 1 })

/-- Embeds def IdeInfo.channel_id (main.py lines 15-24): return the
memoised value when present; otherwise read the launcher state, raise
RuntimeError when the launcher has no record of this IDE, and memoise
and return the record's channelId. -/
def channel_id (w : World) (s : RunState) (info : IdeInfo) :
    Except Err (String × RunState) :=
  match s.memo.lookup info.tool_id with
  | some c => .ok (c, s)
  | none =>
    match toolbox_state w s info.tool_id with
    | .error e => .error e
    | .ok (none, _) => .error (.ideNotFound info.tool_id)
    | .ok (some t, s1) =>
      .ok (t.channelId, { s1 with memo := (info.tool_id, t.channelId) :: s1.memo })

/-- The platform-specific configuration root of an IDE kind:
APPDATA/Google for Android Studio, APPDATA/JetBrains otherwise. -/
def ideRootDir (a : String) (ide : Ide) : String :=
  if ide = Ide.ANDROID then a ++ "/Google" else a ++ "/JetBrains"

/-- Embeds def ide_data_paths (main.py lines 111-122): resolve the
root, treat a missing root as no installations, and return the
immediate subdirectories whose names start (case-sensitively) with the
IDE's folder-name prefix, in OS enumeration order. -/
def ide_data_paths (w : World) (ide : Ide) : Except Err (List String) :=
  match getenv w "APPDATA" none with
  | .error e => .error e
  | .ok a =>
    if w.dirExists (ideRootDir a ide) then
      .ok (((w.subdirs (ideRootDir a ide)).filter
              (fun n => ide.info.folderStart.data.isPrefixOf n.data)).map
            (fun n => ideRootDir a ide ++ "/" ++ n))
    else
      .ok []

/-- Substitution of the $USER_HOME$ placeholder in a record entry key
(main.py line 137). -/
def resolveKey (w : World) (key : String) : String :=
  pyReplace key "$USER_HOME$" w.home

/-- The display name of a surviving project path (main.py lines
142-147): the .idea/.name marker file content when present, else the
final path segment. -/
def displayName (w : World) (p : String) : String :=
  match w.nameFiles (p ++ "/.idea/.name") with
  | some n => n
  | none => lastSegment p

/-- The per-entry loop body of def get_recent_projects (main.py lines
132-155): resolve the key, skip entries whose path is not an existing
directory, determine the display name, and build a Project with a
single NewOpenItem for this kind (which triggers the channel lookup and
may fail).  The Project constructor's
`default_new_open_item = new_open_items[0].channel_id` is inlined at
this, its only, construction site. -/
def buildProjects (w : World) (ide : Ide) :
    List String → RunState → Except Err (List Project × RunState)
  | [], s => .ok ([], s)
  | key :: rest, s =>
    if w.dirExists (resolveKey w key) then
      match channel_id w s ide.info with
      | .error e => .error e
      | .ok (c, s1) =>
        match buildProjects w ide rest s1 with
        | .error e => .error e
        | .ok (ps, s2) =>
          .ok ({ name := displayName w (resolveKey w key),
                 path := resolveKey w key,
                 default_new_open_item := c,
                 new_open_items := [⟨ide.info.tool_id, c⟩] } :: ps, s2)
    else
      buildProjects w ide rest s

/-- Embeds def get_recent_projects (main.py lines 125-160): locate the
folder's recentProjects.xml, contribute zero projects when it is
absent, otherwise process its entries in document order.  (The Rider
diagnostic print writes to stdout only and is not modelled.) -/
def get_recent_projects (w : World) (s : RunState) (ide : Ide) (path : String) :
    Except Err (List Project × RunState) :=
  match w.xmlFiles (path ++ "/options/recentProjects.xml") with
  | none => .ok ([], s)
  | some entries => buildProjects w ide entries s

/-- Python dict assignment `d[k] = v` under insertion-order semantics:
an existing key keeps its original position and takes the new value, a
new key is appended at the end.  (A Python dict never holds a key
twice; the fold below only ever inserts into such association lists,
where replacing the first occurrence is replacing the only one.) -/
def dictInsert : List (String × Project) → String → Project → List (String × Project)
  | [], k, v => [(k, v)]
  | kv :: rest, k, v =>
    if kv.1 = k then (k, v) :: rest else kv :: dictInsert rest k v

/-- `unique_project[project.path] = project` for each project of one
folder in order (main.py lines 170-171). -/
def dictFoldFrom (d : List (String × Project)) (ps : List Project) :
    List (String × Project) :=
  ps.foldl (fun d p => dictInsert d p.path p) d

/-- The per-kind dict built from an empty dict. -/
def dictFold (ps : List Project) : List (String × Project) :=
  dictFoldFrom [] ps

/-- The inner folder loop of def main (main.py lines 169-171): fold
every folder's recent projects into the per-kind dict. -/
def scanFolders (w : World) (ide : Ide) :
    List String → RunState → List (String × Project) →
    Except Err (List (String × Project) × RunState)
  | [], s, d => .ok (d, s)
  | f :: fs, s, d =>
    match get_recent_projects w s ide f with
    | .error e => .error e
    | .ok (ps, s1) => scanFolders w ide fs s1 (dictFoldFrom d ps)

/-- The outer kind loop of def main (main.py lines 166-173): for each
kind, build the per-kind dict over its installation folders and append
the dict's values to the global list. -/
def scanAll (w : World) : List Ide → RunState → Except Err (List Project × RunState)
  | [], s => .ok ([], s)
  | ide :: rest, s =>
    match ide_data_paths w ide with
    | .error e => .error e
    | .ok folders =>
      match scanFolders w ide folders s [] with
      | .error e => .error e
      | .ok (d, s1) =>
        match scanAll w rest s1 with
        | .error e => .error e
        | .ok (ps, s2) => .ok (d.map Prod.snd ++ ps, s2)

/-- JSON values, as produced by json.dumps on the program's records. -/
inductive JVal where
  | jstr : String → JVal
  | jarr : List JVal → JVal
  | jobj : List (String × JVal) → JVal

/-- Embeds NewOpenItem.to_json (main.py lines 51-55). -/
def NewOpenItem.to_json (i : NewOpenItem) : JVal :=
  .jobj [("toolId", .jstr i.tool_id), ("channelId", .jstr i.channel_id)]

/-- Embeds Project.to_json (main.py lines 68-74). -/
def Project.to_json (p : Project) : JVal :=
  .jobj [("name", .jstr p.name),
         ("path", .jstr p.path),
         ("defaultNewOpenItem", .jstr p.default_new_open_item),
         ("newOpenItems", .jarr (p.new_open_items.map NewOpenItem.to_json))]

/-- Field lookup in a JSON object value. -/
def jfield (o : JVal) (k : String) : Option JVal :=
  match o with
  | .jobj fields => fields.lookup k
  | _ => none

/-- Embeds def main (main.py lines 163-179): scan every kind from the
fresh process state, resolve the cache path (which can still fail on a
missing LOCALAPPDATA), and write the serialized project list.  The
returned triple is (aggregated project list, JSON written to the cache
file, final process state). -/
def mainRun (w : World) : Except Err (List Project × JVal × RunState) :=
  match scanAll w ideList RunState.init with
  | .error e => .error e
  | .ok (projects, s) =>
    match toolbox_data_path w "cache/intellij_projects.json" with
    | .error e => .error e
    | .ok _ =>
      .ok (projects, JVal.jarr (projects.map Project.to_json), s)

/-- The cache-file content after one run, given the previous content:
an uncaught exception terminates the process before `write_text`, so
the previous content survives; a successful run overwrites it
unconditionally. -/
def cacheAfterRun (w : World) (prev : Option JVal) : Option JVal :=
  match mainRun w with
  | .ok (_, j, _) => some j
  | .error _ => prev

/-- The aggregated project list of a run ([] when the run fails). -/
def projectsOf (w : World) : List Project :=
  match mainRun w with
  | .ok (ps, _, _) => ps
  | .error _ => []

/-- The JSON written by a run (an empty array when the run fails). -/
def jsonOf (w : World) : JVal :=
  match mainRun w with
  | .ok (_, j, _) => j
  | .error _ => .jarr []

/-- The final process state of a run (the initial state when the run
fails). -/
def stateOf (w : World) : RunState :=
  match mainRun w with
  | .ok (_, _, s) => s
  | .error _ => RunState.init

/-- A machine with both environment variables set but an empty disk: no
launcher state file, no directories, no record files. -/
def wEmpty : World where
  env := fun k =>
    if k = "LOCALAPPDATA" then some "C:/U/L"
    else if k = "APPDATA" then some "C:/U/R"
    else none
  home := "C:/U"
  stateFiles := fun _ => none
  dirExists := fun _ => false
  subdirs := fun _ => []
  xmlFiles := fun _ => none
  nameFiles := fun _ => none

/-- A machine with two PhpStorm installation folders and one Rider
folder.  The first PhpStorm folder records projects p1 and p2 and a
stale path, the second records p2 again, and the Rider folder records
p1.  Project p1 carries an .idea/.name marker, p2 does not. -/
def wFull : World where
  env := fun k =>
    if k = "LOCALAPPDATA" then some "L"
    else if k = "APPDATA" then some "A"
    else none
  home := "H"
  stateFiles := fun p =>
    if p = "L/JetBrains/Toolbox/state.json" then
      some [⟨"PhpStorm", "ps-ch"⟩, ⟨"Rider", "ri-ch"⟩]
    else none
  dirExists := fun p => p == "A/JetBrains" || p == "H/p1" || p == "H/p2"
  subdirs := fun p =>
    if p = "A/JetBrains" then ["PhpStorm2023.1", "PhpStorm2024.1", "Rider2024.1"]
    else []
  xmlFiles := fun p =>
    if p = "A/JetBrains/PhpStorm2023.1/options/recentProjects.xml" then
      some ["$USER_HOME$/p1", "$USER_HOME$/p2", "$USER_HOME$/gone"]
    else if p = "A/JetBrains/PhpStorm2024.1/options/recentProjects.xml" then
      some ["$USER_HOME$/p2"]
    else if p = "A/JetBrains/Rider2024.1/options/recentProjects.xml" then
      some ["$USER_HOME$/p1"]
    else none
  nameFiles := fun p => if p = "H/p1/.idea/.name" then some "ProjOne" else none

/-- The machine of `wFull`, except that the launcher state file assigns
the PhpStorm and Rider tools the same channel id. -/
def wShared : World :=
  { wFull with
    stateFiles := fun p =>
      if p = "L/JetBrains/Toolbox/state.json" then
        some [⟨"PhpStorm", "ch"⟩, ⟨"Rider", "ch"⟩]
      else none }

/-- The machine of `wFull`, except that the launcher state file is
absent. -/
def wNoState : World :=
  { wFull with stateFiles := fun _ => none }

/-- The concatenation, in folder order, of the per-folder project lists
of one IDE kind.  Specification scaffolding: `scanFolders` folds
exactly this concatenation into the per-kind dict (proved in
`scanFolders_eq_collect`). -/
def collectFolders (w : World) (ide : Ide) :
    List String → RunState → Except Err (List Project × RunState)
  | [], s => .ok ([], s)
  | f :: fs, s =>
    match get_recent_projects w s ide f with
    | .error e => .error e
    | .ok (ps, s1) =>
      match collectFolders w ide fs s1 with
      | .error e => .error e
      | .ok (qs, s2) => .ok (ps ++ qs, s2)

/-- The per-kind deduplicated project lists, before main's extend call
flattens them into one list.  Specification scaffolding: `scanAll`
returns the flattening (proved in `scanAll_eq_split`). -/
def scanSplit (w : World) :
    List Ide → RunState → Except Err (List (List Project) × RunState)
  | [], s => .ok ([], s)
  | ide :: rest, s =>
    match ide_data_paths w ide with
    | .error e => .error e
    | .ok folders =>
      match scanFolders w ide folders s [] with
      | .error e => .error e
      | .ok (d, s1) =>
        match scanSplit w rest s1 with
        | .error e => .error e
        | .ok (ls, s2) => .ok (d.map Prod.snd :: ls, s2)

/-- The result of one get_recent_projects call, defaulting to (no
projects, unchanged state) on failure. -/
def grOk (w : World) (s : RunState) (ide : Ide) (f : String) :
    List Project × RunState :=
  match get_recent_projects w s ide f with
  | .ok r => r
  | .error _ => ([], s)

/-- The result of one collectFolders call, defaulting to (no projects,
unchanged state) on failure. -/
def collectOk (w : World) (ide : Ide) (fs : List String) (s : RunState) :
    List Project × RunState :=
  match collectFolders w ide fs s with
  | .ok r => r
  | .error _ => ([], s)

/-- The per-kind lists of a full run, defaulting to no lists on
failure. -/
def splitOk (w : World) : List (List Project) × RunState :=
  match scanSplit w ideList RunState.init with
  | .ok r => r
  | .error _ => ([], RunState.init)

/-- The channelId field of the first element of a serialized record's
newOpenItems array (specification scaffolding for the round-trip
property of the cache shape). -/
def firstItemChannel (r : JVal) : Option JVal :=
  match jfield r "newOpenItems" with
  | some (.jarr (o :: _)) => jfield o "channelId"
  | _ => none

/-! Dictionary lemmas: Python dict assignment and the per-kind fold. -/

theorem dictInsert_lookup (k : String) (v : Project) (k' : String) :
    ∀ d : List (String × Project),
      (dictInsert d k v).lookup k' = if k' = k then some v else d.lookup k' := by
  intro d
  induction d with
  | nil =>
    by_cases h : k' = k
    · simp [dictInsert, List.lookup, h]
    · simp [dictInsert, List.lookup, h, beq_false_of_ne h]
  | cons kv rest ih =>
    by_cases hk : kv.1 = k
    · rw [show dictInsert (kv :: rest) k v = (k, v) :: rest by simp [dictInsert, hk]]
      by_cases h : k' = k
      · simp [List.lookup, h]
      · simp [List.lookup, beq_false_of_ne h, beq_false_of_ne (hk ▸ h), h]
    · rw [show dictInsert (kv :: rest) k v = kv :: dictInsert rest k v by
        simp [dictInsert, hk]]
      by_cases h : k' = k
      · subst h
        have hne : (k' == kv.1) = false := beq_false_of_ne fun he => hk he.symm
        simp [List.lookup, hne, ih]
      · by_cases h2 : k' = kv.1
        · simp [List.lookup, h2, h, hk]
        · simp [List.lookup, beq_false_of_ne h2, ih, h]

theorem dictInsert_mem (k : String) (v : Project) (kv' : String × Project) :
    ∀ d : List (String × Project),
      kv' ∈ dictInsert d k v → kv' = (k, v) ∨ kv' ∈ d := by
  intro d
  induction d with
  | nil => intro h; left; simpa [dictInsert] using h
  | cons kv rest ih =>
    intro h
    by_cases hk : kv.1 = k
    · rw [show dictInsert (kv :: rest) k v = (k, v) :: rest by simp [dictInsert, hk]] at h
      rcases List.mem_cons.mp h with h | h
      · left; exact h
      · right; exact List.mem_cons_of_mem kv h
    · rw [show dictInsert (kv :: rest) k v = kv :: dictInsert rest k v by
        simp [dictInsert, hk]] at h
      rcases List.mem_cons.mp h with h | h
      · right; rw [h]; exact List.mem_cons_self kv rest
      · rcases ih h with h | h
        · left; exact h
        · right; exact List.mem_cons_of_mem kv h

theorem dictInsert_keys_mem (k : String) (v : Project) (x : String) :
    ∀ d : List (String × Project),
      x ∈ (dictInsert d k v).map Prod.fst → x ∈ d.map Prod.fst ∨ x = k := by
  intro d h
  rcases List.mem_map.mp h with ⟨kv', hkv', hx⟩
  rcases dictInsert_mem k v kv' d hkv' with h1 | h1
  · right; rw [← hx, h1]
  · left; exact hx ▸ List.mem_map_of_mem Prod.fst h1

theorem dictInsert_nodup (k : String) (v : Project) :
    ∀ d : List (String × Project),
      (d.map Prod.fst).Nodup → ((dictInsert d k v).map Prod.fst).Nodup := by
  intro d
  induction d with
  | nil => intro _; simp [dictInsert]
  | cons kv rest ih =>
    intro h
    rw [List.map_cons, List.nodup_cons] at h
    by_cases hk : kv.1 = k
    · rw [show dictInsert (kv :: rest) k v = (k, v) :: rest by simp [dictInsert, hk]]
      rw [List.map_cons, List.nodup_cons]
      exact ⟨hk ▸ h.1, h.2⟩
    · rw [show dictInsert (kv :: rest) k v = kv :: dictInsert rest k v by
        simp [dictInsert, hk]]
      rw [List.map_cons, List.nodup_cons]
      refine ⟨fun hmem => ?_, ih h.2⟩
      rcases dictInsert_keys_mem k v kv.1 rest hmem with h1 | h1
      · exact h.1 h1
      · exact hk h1

theorem dictInsert_keys_paths (k : String) (v : Project) (hkv : k = v.path) :
    ∀ d : List (String × Project),
      (∀ kv ∈ d, kv.1 = kv.2.path) →
      ∀ kv ∈ dictInsert d k v, kv.1 = kv.2.path := by
  intro d h kv hmem
  rcases dictInsert_mem k v kv d hmem with h1 | h1
  · rw [h1]; exact hkv
  · exact h kv h1

theorem dictFoldFrom_append (d : List (String × Project)) (ps : List Project)
    (p : Project) :
    dictFoldFrom d (ps ++ [p]) = dictInsert (dictFoldFrom d ps) p.path p := by
  unfold dictFoldFrom
  rw [List.foldl_append]
  rfl

theorem dictFoldFrom_lookup (ps : List Project) :
    ∀ (d : List (String × Project)) (k : String),
      (dictFoldFrom d ps).lookup k =
        match (ps.filter (fun p => p.path == k)).getLast? with
        | some p => some p
        | none => d.lookup k := by
  induction ps using List.reverseRecOn with
  | nil => intro d k; rfl
  | append_singleton l p ih =>
    intro d k
    rw [dictFoldFrom_append, dictInsert_lookup, List.filter_append]
    by_cases h : p.path = k
    · simp only [if_pos h.symm]
      have hf : List.filter (fun p => p.path == k) [p] = [p] := by simp [h]
      rw [hf, List.getLast?_append_cons]
      rfl
    · have hf : List.filter (fun p => p.path == k) [p] = [] := by
        simp [beq_false_of_ne h]
      rw [hf, List.append_nil, if_neg (fun hk => h hk.symm), ih]

theorem dictFoldFrom_nodup (ps : List Project) :
    ∀ d : List (String × Project),
      (d.map Prod.fst).Nodup → ((dictFoldFrom d ps).map Prod.fst).Nodup := by
  induction ps with
  | nil => intro d h; exact h
  | cons p rest ih =>
    intro d h
    exact ih (dictInsert d p.path p) (dictInsert_nodup p.path p d h)

theorem dictFoldFrom_mem (ps : List Project) :
    ∀ (d : List (String × Project)) (kv : String × Project),
      kv ∈ dictFoldFrom d ps → kv.2 ∈ ps ∨ kv ∈ d := by
  induction ps with
  | nil => intro d kv h; right; exact h
  | cons p rest ih =>
    intro d kv h
    rcases ih (dictInsert d p.path p) kv h with h1 | h1
    · left; exact List.mem_cons_of_mem p h1
    · rcases dictInsert_mem p.path p kv d h1 with h2 | h2
      · left; rw [h2]; exact List.mem_cons_self p rest
      · right; exact h2

theorem dictFoldFrom_keys_paths (ps : List Project) :
    ∀ d : List (String × Project),
      (∀ kv ∈ d, kv.1 = kv.2.path) →
      ∀ kv ∈ dictFoldFrom d ps, kv.1 = kv.2.path := by
  induction ps with
  | nil => intro d h kv hkv; exact h kv hkv
  | cons p rest ih =>
    intro d h kv hkv
    exact ih (dictInsert d p.path p) (dictInsert_keys_paths p.path p rfl d h) kv hkv

/-! Lemmas about the per-folder scan. -/

theorem buildProjects_shape (w : World) (ide : Ide) :
    ∀ (keys : List String) (s : RunState) (ps : List Project) (s' : RunState),
      buildProjects w ide keys s = .ok (ps, s') →
      ∀ p ∈ ps,
        p.new_open_items = [⟨ide.info.tool_id, p.default_new_open_item⟩] ∧
        p.name = displayName w p.path := by
  intro keys
  induction keys with
  | nil =>
    intro s ps s' h p hp
    simp only [buildProjects] at h
    cases h
    simp at hp
  | cons key rest ih =>
    intro s ps s' h p hp
    simp only [buildProjects] at h
    split at h
    · split at h
      next e hc => exact Except.noConfusion h
      next c s1 hc =>
        split at h
        next e hb => exact Except.noConfusion h
        next qs s2 hb =>
          simp only [Except.ok.injEq, Prod.mk.injEq] at h
          obtain ⟨h1, h2⟩ := h
          rw [← h1] at hp
          rcases List.mem_cons.mp hp with hp | hp
          · subst hp; exact ⟨rfl, rfl⟩
          · exact ih s1 qs s2 hb p hp
    · exact ih s ps s' h p hp

theorem buildProjects_paths (w : World) (ide : Ide) :
    ∀ (keys : List String) (s : RunState) (ps : List Project) (s' : RunState),
      buildProjects w ide keys s = .ok (ps, s') →
      ps.map Project.path =
        (keys.map (resolveKey w)).filter (fun p => w.dirExists p) := by
  intro keys
  induction keys with
  | nil =>
    intro s ps s' h
    simp only [buildProjects] at h
    cases h
    rfl
  | cons key rest ih =>
    intro s ps s' h
    simp only [buildProjects] at h
    split at h
    next hdir =>
      split at h
      next e hc => exact Except.noConfusion h
      next c s1 hc =>
        split at h
        next e hb => exact Except.noConfusion h
        next qs s2 hb =>
          simp only [Except.ok.injEq, Prod.mk.injEq] at h
          obtain ⟨h1, h2⟩ := h
          rw [← h1]
          simp only [List.map_cons, List.filter_cons, hdir, if_true]
          rw [ih s1 qs s2 hb]
    next hdir =>
      simp only [List.map_cons, List.filter_cons]
      rw [if_neg (by simpa using hdir)]
      exact ih s ps s' h

theorem buildProjects_skip (w : World) (ide : Ide) :
    ∀ (keys : List String) (s : RunState),
      (∀ key ∈ keys, w.dirExists (resolveKey w key) = false) →
      buildProjects w ide keys s = .ok ([], s) := by
  intro keys
  induction keys with
  | nil => intro s _; rfl
  | cons key rest ih =>
    intro s h
    simp only [buildProjects]
    rw [if_neg (by simp [h key (List.mem_cons_self key rest)])]
    exact ih s (fun key' hk => h key' (List.mem_cons_of_mem key hk))

theorem channel_id_stateAbsent (w : World) (s : RunState) (info : IdeInfo)
    (la : String) (hla : w.env "LOCALAPPDATA" = some la)
    (habs : ∀ p, w.stateFiles p = none) (hmemo : s.memo = []) :
    channel_id w s info = .error .stateNotFound := by
  simp [channel_id, hmemo, List.lookup, toolbox_state, toolbox_data_path, getenv,
    hla, habs]

theorem buildProjects_stateAbsent (w : World) (ide : Ide)
    (la : String) (hla : w.env "LOCALAPPDATA" = some la)
    (habs : ∀ p, w.stateFiles p = none) :
    ∀ (keys : List String) (s : RunState), s.memo = [] →
      buildProjects w ide keys s = .error .stateNotFound ∨
      buildProjects w ide keys s = .ok ([], s) := by
  intro keys
  induction keys with
  | nil => intro s _; right; rfl
  | cons key rest ih =>
    intro s hmemo
    by_cases hdir : w.dirExists (resolveKey w key) = true
    · left
      simp only [buildProjects, if_pos hdir]
      rw [channel_id_stateAbsent w s ide.info la hla habs hmemo]
    · rcases ih s hmemo with h | h
      · left; simpa [buildProjects, hdir] using h
      · right; simpa [buildProjects, hdir] using h

/-! The same facts lifted to get_recent_projects. -/

theorem gr_shape (w : World) (s : RunState) (ide : Ide) (f : String)
    (ps : List Project) (s' : RunState)
    (h : get_recent_projects w s ide f = .ok (ps, s')) :
    ∀ p ∈ ps,
      p.new_open_items = [⟨ide.info.tool_id, p.default_new_open_item⟩] ∧
      p.name = displayName w p.path := by
  unfold get_recent_projects at h
  cases hx : w.xmlFiles (f ++ "/options/recentProjects.xml") with
  | none => rw [hx] at h; cases h; intro p hp; simp at hp
  | some entries => rw [hx] at h; exact buildProjects_shape w ide entries s ps s' h

theorem gr_stateAbsent (w : World) (s : RunState) (ide : Ide) (f : String)
    (la : String) (hla : w.env "LOCALAPPDATA" = some la)
    (habs : ∀ p, w.stateFiles p = none) (hmemo : s.memo = []) :
    get_recent_projects w s ide f = .error .stateNotFound ∨
    get_recent_projects w s ide f = .ok ([], s) := by
  unfold get_recent_projects
  cases hx : w.xmlFiles (f ++ "/options/recentProjects.xml") with
  | none => right; rfl
  | some entries => exact buildProjects_stateAbsent w ide la hla habs entries s hmemo

theorem gr_skip (w : World) (s : RunState) (ide : Ide) (f : String)
    (hskip : ∀ f' entries, w.xmlFiles f' = some entries →
      ∀ e ∈ entries, w.dirExists (resolveKey w e) = false) :
    get_recent_projects w s ide f = .ok ([], s) := by
  unfold get_recent_projects
  cases hx : w.xmlFiles (f ++ "/options/recentProjects.xml") with
  | none => rfl
  | some entries => exact buildProjects_skip w ide entries s (hskip _ entries hx)

/-! Lemmas lifting the per-folder facts through the two loops of main. -/

theorem dictFoldFrom_concat (d : List (String × Project)) (ps qs : List Project) :
    dictFoldFrom d (ps ++ qs) = dictFoldFrom (dictFoldFrom d ps) qs := by
  unfold dictFoldFrom
  rw [List.foldl_append]

theorem scanFolders_eq_collect (w : World) (ide : Ide) :
    ∀ (fs : List String) (s : RunState) (d : List (String × Project)),
      scanFolders w ide fs s d =
        match collectFolders w ide fs s with
        | .error e => .error e
        | .ok (ps, s2) => .ok (dictFoldFrom d ps, s2) := by
  intro fs
  induction fs with
  | nil => intro s d; rfl
  | cons f rest ih =>
    intro s d
    simp only [scanFolders, collectFolders]
    cases hg : get_recent_projects w s ide f with
    | error e => rfl
    | ok r =>
      obtain ⟨ps, s1⟩ := r
      dsimp only
      rw [ih s1 (dictFoldFrom d ps)]
      cases hc : collectFolders w ide rest s1 with
      | error e => rfl
      | ok r2 =>
        obtain ⟨qs, s2⟩ := r2
        dsimp only
        rw [dictFoldFrom_concat]

theorem collect_shape (w : World) (ide : Ide) :
    ∀ (fs : List String) (s : RunState) (ps : List Project) (s' : RunState),
      collectFolders w ide fs s = .ok (ps, s') →
      ∀ p ∈ ps,
        p.new_open_items = [⟨ide.info.tool_id, p.default_new_open_item⟩] ∧
        p.name = displayName w p.path := by
  intro fs
  induction fs with
  | nil =>
    intro s ps s' h p hp
    simp only [collectFolders] at h
    cases h
    simp at hp
  | cons f rest ih =>
    intro s ps s' h p hp
    simp only [collectFolders] at h
    split at h
    next e hg => exact Except.noConfusion h
    next qs s1 hg =>
      split at h
      next e hc => exact Except.noConfusion h
      next rs s2 hc =>
        simp only [Except.ok.injEq, Prod.mk.injEq] at h
        obtain ⟨h1, h2⟩ := h
        rw [← h1] at hp
        rcases List.mem_append.mp hp with hp | hp
        · exact gr_shape w s ide f qs s1 hg p hp
        · exact ih s1 rs s2 hc p hp

theorem gr_paths (w : World) (s : RunState) (ide : Ide) (f : String)
    (entries : List String) (ps : List Project) (s' : RunState)
    (hx : w.xmlFiles (f ++ "/options/recentProjects.xml") = some entries)
    (h : get_recent_projects w s ide f = .ok (ps, s')) :
    ps.map Project.path =
      (entries.map (resolveKey w)).filter (fun p => w.dirExists p) := by
  unfold get_recent_projects at h
  rw [hx] at h
  exact buildProjects_paths w ide entries s ps s' h

theorem scanFolders_stateAbsent (w : World) (ide : Ide) (la : String)
    (hla : w.env "LOCALAPPDATA" = some la)
    (habs : ∀ p, w.stateFiles p = none) :
    ∀ (fs : List String) (s : RunState) (d : List (String × Project)),
      s.memo = [] →
      scanFolders w ide fs s d = .error .stateNotFound ∨
      scanFolders w ide fs s d = .ok (d, s) := by
  intro fs
  induction fs with
  | nil => intro s d _; right; rfl
  | cons f rest ih =>
    intro s d hmemo
    rcases gr_stateAbsent w s ide f la hla habs hmemo with h | h
    · left
      simp only [scanFolders, h]
    · have step : scanFolders w ide (f :: rest) s d = scanFolders w ide rest s d := by
        simp only [scanFolders, h, dictFoldFrom, List.foldl_nil]
      rw [step]
      exact ih s d hmemo

theorem scanFolders_skip (w : World) (ide : Ide)
    (hskip : ∀ f' entries, w.xmlFiles f' = some entries →
      ∀ e ∈ entries, w.dirExists (resolveKey w e) = false) :
    ∀ (fs : List String) (s : RunState) (d : List (String × Project)),
      scanFolders w ide fs s d = .ok (d, s) := by
  intro fs
  induction fs with
  | nil => intro s d; rfl
  | cons f rest ih =>
    intro s d
    have step : scanFolders w ide (f :: rest) s d = scanFolders w ide rest s d := by
      simp only [scanFolders, gr_skip w s ide f hskip, dictFoldFrom, List.foldl_nil]
    rw [step]
    exact ih s d

theorem ide_data_paths_ok (w : World) (ide : Ide) (a : String)
    (ha : w.env "APPDATA" = some a) :
    ide_data_paths w ide =
      .ok (if w.dirExists (ideRootDir a ide) then
            ((w.subdirs (ideRootDir a ide)).filter
                (fun n => ide.info.folderStart.data.isPrefixOf n.data)).map
              (fun n => ideRootDir a ide ++ "/" ++ n)
          else []) := by
  simp only [ide_data_paths, getenv, ha]
  split <;> rfl

theorem ide_data_paths_isOk (w : World) (ide : Ide) (a : String)
    (ha : w.env "APPDATA" = some a) :
    ∃ fs, ide_data_paths w ide = .ok fs :=
  ⟨_, ide_data_paths_ok w ide a ha⟩

theorem scanAll_stateAbsent (w : World) (la a : String)
    (hla : w.env "LOCALAPPDATA" = some la)
    (ha : w.env "APPDATA" = some a)
    (habs : ∀ p, w.stateFiles p = none) :
    ∀ (ides : List Ide) (s : RunState), s.memo = [] →
      scanAll w ides s = .error .stateNotFound ∨
      scanAll w ides s = .ok ([], s) := by
  intro ides
  induction ides with
  | nil => intro s _; right; rfl
  | cons ide rest ih =>
    intro s hmemo
    obtain ⟨F, hF⟩ := ide_data_paths_isOk w ide a ha
    simp only [scanAll]
    rw [hF]
    dsimp only
    rcases scanFolders_stateAbsent w ide la hla habs F s [] hmemo with h | h
    · left
      simp only [h]
    · rw [h]
      dsimp only
      rcases ih s hmemo with h2 | h2
      · left
        simp only [h2]
      · right
        simp [h2]

theorem scanAll_skip (w : World) (a : String)
    (ha : w.env "APPDATA" = some a)
    (hskip : ∀ f' entries, w.xmlFiles f' = some entries →
      ∀ e ∈ entries, w.dirExists (resolveKey w e) = false) :
    ∀ (ides : List Ide) (s : RunState), scanAll w ides s = .ok ([], s) := by
  intro ides
  induction ides with
  | nil => intro s; rfl
  | cons ide rest ih =>
    intro s
    obtain ⟨F, hF⟩ := ide_data_paths_isOk w ide a ha
    simp only [scanAll]
    rw [hF]
    dsimp only
    rw [scanFolders_skip w ide hskip F s []]
    dsimp only
    simp [ih s]

theorem mainRun_inv (w : World) (out : List Project) (j : JVal) (sf : RunState)
    (h : mainRun w = .ok (out, j, sf)) :
    scanAll w ideList RunState.init = .ok (out, sf) ∧
    j = JVal.jarr (out.map Project.to_json) := by
  unfold mainRun at h
  split at h
  next e hs => exact Except.noConfusion h
  next ps s hs =>
    split at h
    next e ht => exact Except.noConfusion h
    next p ht =>
      simp only [Except.ok.injEq, Prod.mk.injEq] at h
      obtain ⟨h1, h2, h3⟩ := h
      subst h1
      subst h3
      exact ⟨hs, h2.symm⟩

theorem scanAll_eq_split (w : World) :
    ∀ (ides : List Ide) (s : RunState),
      scanAll w ides s =
        match scanSplit w ides s with
        | .error e => .error e
        | .ok (ls, s2) => .ok (ls.flatten, s2) := by
  intro ides
  induction ides with
  | nil => intro s; rfl
  | cons ide rest ih =>
    intro s
    simp only [scanAll, scanSplit]
    cases hi : ide_data_paths w ide with
    | error e => rfl
    | ok folders =>
      dsimp only
      cases hf : scanFolders w ide folders s [] with
      | error e => rfl
      | ok r =>
        obtain ⟨d, s1⟩ := r
        dsimp only
        rw [ih s1]
        cases hs : scanSplit w rest s1 with
        | error e => rfl
        | ok r2 =>
          obtain ⟨ls, s2⟩ := r2
          dsimp only
          rw [List.flatten_cons]

/-! Helper facts about serialized records and about the items of every
aggregated project. -/

theorem to_json_defaultField (p : Project) :
    jfield (Project.to_json p) "defaultNewOpenItem" =
      some (.jstr p.default_new_open_item) := rfl

theorem to_json_firstItemChannel (p : Project) (item : NewOpenItem)
    (hitems : p.new_open_items = [item]) :
    firstItemChannel (Project.to_json p) = some (.jstr item.channel_id) := by
  simp only [Project.to_json, firstItemChannel, jfield]
  rw [hitems]
  rfl

theorem scanAll_items (w : World) :
    ∀ (ides : List Ide) (s : RunState) (out : List Project) (s' : RunState),
      scanAll w ides s = .ok (out, s') →
      ∀ p ∈ out, ∃ tid, p.new_open_items = [⟨tid, p.default_new_open_item⟩] := by
  intro ides
  induction ides with
  | nil =>
    intro s out s' h p hp
    simp only [scanAll] at h
    cases h
    simp at hp
  | cons ide rest ih =>
    intro s out s' h p hp
    simp only [scanAll] at h
    split at h
    next e hi => exact Except.noConfusion h
    next folders hi =>
      split at h
      next e hf => exact Except.noConfusion h
      next d s1 hf =>
        split at h
        next e hs => exact Except.noConfusion h
        next qs s2 hs =>
          simp only [Except.ok.injEq, Prod.mk.injEq] at h
          obtain ⟨h1, h2⟩ := h
          rw [← h1] at hp
          rcases List.mem_append.mp hp with hp | hp
          · rw [scanFolders_eq_collect] at hf
            split at hf
            next e hc => exact Except.noConfusion hf
            next cps cs2 hc =>
              simp only [Except.ok.injEq, Prod.mk.injEq] at hf
              obtain ⟨hd, hs1⟩ := hf
              rcases List.mem_map.mp hp with ⟨kv, hkv, hsnd⟩
              rw [← hd] at hkv
              rcases dictFoldFrom_mem cps [] kv hkv with hin | hin
              · have := (collect_shape w ide folders s cps cs2 hc kv.2 hin).1
                exact ⟨ide.info.tool_id, by rw [hsnd] at this; exact this⟩
              · simp at hin
          · exact ih s1 qs s2 hs p hp

/-! C9: the environment resolver contract. -/

/-- C9: the environment resolver returns the variable's value when it
is set, returns the default when the variable is unset and a default
was given, and raises an environment-missing error exactly when the
variable is unset and no default was given. -/
theorem claim_C9 (w : World) (key : String) (d : Option String) :
    (∀ v, w.env key = some v → getenv w key d = .ok v) ∧
    (w.env key = none → ∀ dv, d = some dv → getenv w key d = .ok dv) ∧
    (getenv w key d = .error (.envMissing key) ↔ w.env key = none ∧ d = none) := by
  refine ⟨?_, ?_, ?_⟩
  · intro v hv
    simp [getenv, hv]
  · intro hv dv hd
    simp [getenv, hv, hd]
  · constructor
    · intro h
      cases he : w.env key with
      | some v => simp [getenv, he] at h
      | none =>
        cases hd : d with
        | some dv => simp [getenv, he, hd] at h
        | none => exact ⟨rfl, rfl⟩
    · rintro ⟨h1, h2⟩
      simp [getenv, h1, h2]

/-- C9 witness at concrete inputs: a set variable, an unset variable
with a default, and an unset variable without a default. -/
theorem claim_C9_witness :
    getenv wFull "APPDATA" none = .ok "A" ∧
    getenv wFull "NOPE" (some "fallback") = .ok "fallback" ∧
    getenv wFull "NOPE" none = .error (.envMissing "NOPE") :=
  ⟨(claim_C9 wFull "APPDATA" none).1 "A" rfl,
   (claim_C9 wFull "NOPE" (some "fallback")).2.1 rfl "fallback" rfl,
   ((claim_C9 wFull "NOPE" none).2.2).mpr ⟨rfl, rfl⟩⟩

/-! C8: a missing configuration root contributes nothing. -/

/-- C8: for an IDE kind whose platform-specific configuration root
directory does not exist, the folder list is empty and the kind's
iteration of main's loop contributes zero projects and raises no
error: running the loop with that kind prepended gives exactly the
result of running it without the kind. -/
theorem claim_C8 (w : World) (ide : Ide) (a : String)
    (ha : w.env "APPDATA" = some a)
    (hroot : w.dirExists (ideRootDir a ide) = false) :
    ide_data_paths w ide = .ok [] ∧
    ∀ (rest : List Ide) (s : RunState),
      scanAll w (ide :: rest) s = scanAll w rest s := by
  have h1 : ide_data_paths w ide = .ok [] := by
    rw [ide_data_paths_ok w ide a ha, hroot]
    simp
  refine ⟨h1, ?_⟩
  intro rest s
  simp only [scanAll, h1, scanFolders]
  cases hs : scanAll w rest s with
  | error e => simp [hs]
  | ok r =>
    obtain ⟨ps, s2⟩ := r
    simp [hs]

/-- C8 witness: on the empty machine no root exists, and the Rider
iteration is a no-op. -/
theorem claim_C8_witness :
    ide_data_paths wEmpty Ide.RIDER = .ok [] ∧
    scanAll wEmpty (Ide.RIDER :: []) RunState.init =
      scanAll wEmpty [] RunState.init := by
  have h := claim_C8 wEmpty Ide.RIDER "C:/U/R" rfl rfl
  exact ⟨h.1, h.2 [] RunState.init⟩

/-! C6: the channel-identifier lookup. -/

/-- C6: with the state file present and the channel id not yet
memoised, the lookup fails with the IDE-not-found error exactly when no
tool record's key matches; otherwise it returns the matching record's
channel identifier, records one state-file read, and memoises the
result so that a repeated lookup returns the same value without
touching the state again. -/
theorem claim_C6 (w : World) (s : RunState) (info : IdeInfo)
    (tools : List Tool) (la : String)
    (henv : w.env "LOCALAPPDATA" = some la)
    (hstate : w.stateFiles (la ++ "/JetBrains/Toolbox/" ++ "state.json") = some tools)
    (hmemo : s.memo.lookup info.tool_id = none) :
    (channel_id w s info = .error (.ideNotFound info.tool_id) ↔
      tools.find? (fun t => t.toolId == info.tool_id) = none) ∧
    ∀ t, tools.find? (fun t => t.toolId == info.tool_id) = some t →
      channel_id w s info =
        .ok (t.channelId,
          ⟨(info.tool_id, t.channelId) :: s.memo, s.stateReads + 1⟩) ∧
      channel_id w ⟨(info.tool_id, t.channelId) :: s.memo, s.stateReads + 1⟩ info =
        .ok (t.channelId,
          ⟨(info.tool_id, t.channelId) :: s.memo, s.stateReads + 1⟩) := by
  have hcid : channel_id w s info =
      match tools.find? (fun t => t.toolId == info.tool_id) with
      | none => .error (.ideNotFound info.tool_id)
      | some t =>
        .ok (t.channelId,
          ⟨(info.tool_id, t.channelId) :: s.memo, s.stateReads + 1⟩) := by
    simp only [channel_id, hmemo, toolbox_state, toolbox_data_path, getenv, henv,
      hstate]
    cases hf : tools.find? (fun t => t.toolId == info.tool_id) <;> rfl
  constructor
  · rw [hcid]
    cases hf : tools.find? (fun t => t.toolId == info.tool_id) with
    | none => simp
    | some t => simp
  · intro t hf
    rw [hcid, hf]
    refine ⟨rfl, ?_⟩
    simp [channel_id, List.lookup]

/-- C6 witness: the first PhpStorm lookup on the full machine reads
the state once, memoises the channel id, and a second lookup is a
memo hit. -/
theorem claim_C6_witness :
    channel_id wFull RunState.init Ide.PHPSTORM.info =
      .ok ("ps-ch", ⟨[("PhpStorm", "ps-ch")], 1⟩) ∧
    channel_id wFull ⟨[("PhpStorm", "ps-ch")], 1⟩ Ide.PHPSTORM.info =
      .ok ("ps-ch", ⟨[("PhpStorm", "ps-ch")], 1⟩) :=
  (claim_C6 wFull RunState.init Ide.PHPSTORM.info
    [⟨"PhpStorm", "ps-ch"⟩, ⟨"Rider", "ri-ch"⟩] "L" rfl rfl rfl).2
    ⟨"PhpStorm", "ps-ch"⟩ rfl

/-! C5: stale record entries are excluded. -/

/-- C5: the surviving project paths of one folder are exactly the
resolved record-entry keys (after home-directory substitution) that
are existing directories, in record order; every entry whose resolved
path is not an existing directory is excluded. -/
theorem claim_C5 (w : World) (s : RunState) (ide : Ide) (f : String)
    (entries : List String) (ps : List Project) (s' : RunState)
    (hx : w.xmlFiles (f ++ "/options/recentProjects.xml") = some entries)
    (h : get_recent_projects w s ide f = .ok (ps, s')) :
    ps.map Project.path =
      (entries.map (resolveKey w)).filter (fun p => w.dirExists p) :=
  gr_paths w s ide f entries ps s' hx h

/-- C5 witness: a record with two valid entries and one stale entry
yields exactly 2 projects for that folder. -/
theorem claim_C5_witness :
    ((grOk wFull RunState.init Ide.PHPSTORM "A/JetBrains/PhpStorm2023.1").1.map
        Project.path =
      ((["$USER_HOME$/p1", "$USER_HOME$/p2", "$USER_HOME$/gone"].map
          (resolveKey wFull)).filter (fun p => wFull.dirExists p))) ∧
    (grOk wFull RunState.init Ide.PHPSTORM "A/JetBrains/PhpStorm2023.1").1.length = 2 :=
  ⟨claim_C5 wFull RunState.init Ide.PHPSTORM "A/JetBrains/PhpStorm2023.1"
    ["$USER_HOME$/p1", "$USER_HOME$/p2", "$USER_HOME$/gone"]
    (grOk wFull RunState.init Ide.PHPSTORM "A/JetBrains/PhpStorm2023.1").1
    (grOk wFull RunState.init Ide.PHPSTORM "A/JetBrains/PhpStorm2023.1").2
    rfl rfl, rfl⟩

/-! C7: the display-name rule. -/

/-- C7: every project record produced by a folder scan takes its name
from the .idea/.name marker file when that file exists, and from the
final path segment of the project directory otherwise. -/
theorem claim_C7 (w : World) (s : RunState) (ide : Ide) (f : String)
    (ps : List Project) (s' : RunState)
    (h : get_recent_projects w s ide f = .ok (ps, s')) :
    ∀ p ∈ ps,
      p.name =
        match w.nameFiles (p.path ++ "/.idea/.name") with
        | some n => n
        | none => lastSegment p.path :=
  fun p hp => (gr_shape w s ide f ps s' h p hp).2

/-- C7 witness: project p2 has no marker file, so its name is the
final path segment of H/p2. -/
theorem claim_C7_witness :
    (⟨"p2", "H/p2", "ps-ch", [⟨"PhpStorm", "ps-ch"⟩]⟩ : Project).name =
      match wFull.nameFiles ("H/p2" ++ "/.idea/.name") with
      | some n => n
      | none => lastSegment "H/p2" :=
  claim_C7 wFull RunState.init Ide.PHPSTORM "A/JetBrains/PhpStorm2023.1"
    (grOk wFull RunState.init Ide.PHPSTORM "A/JetBrains/PhpStorm2023.1").1
    (grOk wFull RunState.init Ide.PHPSTORM "A/JetBrains/PhpStorm2023.1").2
    rfl
    ⟨"p2", "H/p2", "ps-ch", [⟨"PhpStorm", "ps-ch"⟩]⟩ (by decide)

/-! C10: the state file is read lazily. -/

/-- C10: when scanning discovers no surviving project entry for any
IDE kind (every record entry anywhere resolves to a non-directory; in
particular when no record files exist at all), the run never touches
the launcher state file — the final state is the initial one, with
zero state-file reads — and it succeeds, overwriting the cache file
with an empty JSON array, regardless of whether the state file is
absent. -/
theorem claim_C10 (w : World) (la a : String) (prev : Option JVal)
    (hla : w.env "LOCALAPPDATA" = some la)
    (ha : w.env "APPDATA" = some a)
    (hskip : ∀ f entries, w.xmlFiles f = some entries →
      ∀ e ∈ entries, w.dirExists (resolveKey w e) = false) :
    mainRun w = .ok ([], JVal.jarr [], RunState.init) ∧
    RunState.init.stateReads = 0 ∧
    cacheAfterRun w prev = some (JVal.jarr []) := by
  have hs := scanAll_skip w a ha hskip ideList RunState.init
  have hm : mainRun w = .ok ([], JVal.jarr [], RunState.init) := by
    simp only [mainRun, hs, toolbox_data_path, getenv, hla]
    rfl
  exact ⟨hm, rfl, by simp [cacheAfterRun, hm]⟩

/-- C10 witness: the empty machine has no launcher state file, yet the
run succeeds with an empty cache and zero state-file reads. -/
theorem claim_C10_witness :
    mainRun wEmpty = .ok ([], JVal.jarr [], RunState.init) ∧
    RunState.init.stateReads = 0 ∧
    cacheAfterRun wEmpty none = some (JVal.jarr []) :=
  claim_C10 wEmpty "C:/U/L" "C:/U/R" none rfl rfl
    (fun _ _ hx => Option.noConfusion hx)

/-! C1: behaviour when the launcher state file is absent. -/

/-- C1 counterexample: the state file is absent on the empty machine,
yet the run does not abort — it succeeds and overwrites a previous
cache with an empty array — refuting the claim that every run aborts
when the state file is absent. -/
theorem claim_C1_counterexample :
    wEmpty.stateFiles = (fun _ => none) ∧
    mainRun wEmpty = .ok ([], JVal.jarr [], RunState.init) ∧
    cacheAfterRun wEmpty (some (JVal.jarr [JVal.jstr "old"])) =
      some (JVal.jarr []) :=
  ⟨rfl, rfl, rfl⟩

/-- C1 (amended): when the launcher state file is absent and both
environment variables are set, a run either aborts with the
state-file-not-found error — in which case no cache file is written
and any previous cache content is left unchanged — or it discovered no
surviving project entry, never read the state file, and succeeded
writing an empty list. -/
theorem claim_C1 (w : World) (prev : Option JVal) (la a : String)
    (hla : w.env "LOCALAPPDATA" = some la)
    (ha : w.env "APPDATA" = some a)
    (habs : ∀ p, w.stateFiles p = none) :
    (mainRun w = .error .stateNotFound ∧ cacheAfterRun w prev = prev) ∨
    mainRun w = .ok ([], JVal.jarr [], RunState.init) := by
  rcases scanAll_stateAbsent w la a hla ha habs ideList RunState.init rfl with h | h
  · left
    have hm : mainRun w = .error .stateNotFound := by
      simp only [mainRun, h]
    exact ⟨hm, by simp [cacheAfterRun, hm]⟩
  · right
    simp only [mainRun, h, toolbox_data_path, getenv, hla]
    rfl

/-- C1 witness: on the full machine with the state file removed, the
first surviving project entry triggers the state read, the run aborts
with the state-file-not-found error, and a previous cache survives. -/
theorem claim_C1_witness :
    (mainRun wNoState = .error .stateNotFound ∧
      cacheAfterRun wNoState (some (JVal.jarr [JVal.jstr "keep"])) =
        some (JVal.jarr [JVal.jstr "keep"])) ∨
    mainRun wNoState = .ok ([], JVal.jarr [], RunState.init) :=
  claim_C1 wNoState (some (JVal.jarr [JVal.jstr "keep"])) "L" "A" rfl rfl
    (fun _ => rfl)

/-! C2: per-kind deduplication is last-write-wins. -/

/-- C2: for any IDE kind, folding the concatenated per-folder project
lists into the per-kind dict (which is exactly what main's inner loop
does, first conjunct) yields at most one entry per filesystem path
(second and third conjuncts), and the surviving Project under a path
is literally the last record produced for that path across the
folders, in processing order — last-write-wins with no merging of
open-actions (fourth conjunct). -/
theorem claim_C2 (w : World) (ide : Ide) (fs : List String) (s : RunState)
    (ps : List Project) (s' : RunState)
    (h : collectFolders w ide fs s = .ok (ps, s')) :
    scanFolders w ide fs s [] = .ok (dictFold ps, s') ∧
    ((dictFold ps).map Prod.fst).Nodup ∧
    (∀ kv ∈ dictFold ps, kv.1 = kv.2.path) ∧
    ∀ k, (dictFold ps).lookup k =
      (ps.filter (fun p => p.path == k)).getLast? := by
  refine ⟨?_, ?_, ?_, ?_⟩
  · rw [scanFolders_eq_collect, h]
    rfl
  · exact dictFoldFrom_nodup ps [] (by simp)
  · exact dictFoldFrom_keys_paths ps [] (by simp)
  · intro k
    rw [dictFold, dictFoldFrom_lookup]
    cases (ps.filter (fun p => p.path == k)).getLast? <;> rfl

/-- C2 witness: path H/p2 is reported by both PhpStorm folders; the
surviving entry is the last record for that path. -/
theorem claim_C2_witness :
    (dictFold (collectOk wFull Ide.PHPSTORM
        ["A/JetBrains/PhpStorm2023.1", "A/JetBrains/PhpStorm2024.1"]
        RunState.init).1).lookup "H/p2" =
      ((collectOk wFull Ide.PHPSTORM
        ["A/JetBrains/PhpStorm2023.1", "A/JetBrains/PhpStorm2024.1"]
        RunState.init).1.filter (fun p => p.path == "H/p2")).getLast? :=
  (claim_C2 wFull Ide.PHPSTORM
    ["A/JetBrains/PhpStorm2023.1", "A/JetBrains/PhpStorm2024.1"] RunState.init
    (collectOk wFull Ide.PHPSTORM
      ["A/JetBrains/PhpStorm2023.1", "A/JetBrains/PhpStorm2024.1"]
      RunState.init).1
    (collectOk wFull Ide.PHPSTORM
      ["A/JetBrains/PhpStorm2023.1", "A/JetBrains/PhpStorm2024.1"]
      RunState.init).2
    rfl).2.2.2 "H/p2"

/-! C4: the round-trip property of every emitted record. -/

/-- C4: when a run succeeds, the cache JSON is the array of the
serialized aggregated records, and for every emitted record the
defaultNewOpenItem field equals the channelId field of the first
element of its newOpenItems array (which equals the record's
default_new_open_item, the channel id of its single open action). -/
theorem claim_C4 (w : World) (out : List Project) (j : JVal) (sf : RunState)
    (hm : mainRun w = .ok (out, j, sf)) :
    j = JVal.jarr (out.map Project.to_json) ∧
    ∀ p ∈ out,
      jfield (Project.to_json p) "defaultNewOpenItem" =
        some (.jstr p.default_new_open_item) ∧
      firstItemChannel (Project.to_json p) =
        some (.jstr p.default_new_open_item) ∧
      p.new_open_items.map NewOpenItem.channel_id =
        [p.default_new_open_item] := by
  obtain ⟨hscan, hj⟩ := mainRun_inv w out j sf hm
  refine ⟨hj, ?_⟩
  intro p hp
  obtain ⟨tid, hitems⟩ := scanAll_items w ideList RunState.init out sf hscan p hp
  refine ⟨to_json_defaultField p, ?_, ?_⟩
  · exact to_json_firstItemChannel p ⟨tid, p.default_new_open_item⟩ hitems
  · rw [hitems]
    rfl

/-- C4 witness: on the full machine the written JSON is the array of
the serialized aggregated records. -/
theorem claim_C4_witness :
    jsonOf wFull = JVal.jarr ((projectsOf wFull).map Project.to_json) :=
  (claim_C4 wFull (projectsOf wFull) (jsonOf wFull) (stateOf wFull) rfl).1

/-! C3: no cross-kind merge of open-actions. -/

theorem scanSplit_props (w : World) :
    ∀ (ides : List Ide) (s : RunState) (ls : List (List Project)) (s' : RunState),
      scanSplit w ides s = .ok (ls, s') →
      List.Forall₂ (fun (ide : Ide) (l : List Project) =>
        (l.map Project.path).Nodup ∧
        ∀ p ∈ l, p.new_open_items = [⟨ide.info.tool_id, p.default_new_open_item⟩])
        ides ls := by
  intro ides
  induction ides with
  | nil =>
    intro s ls s' h
    simp only [scanSplit] at h
    cases h
    exact List.Forall₂.nil
  | cons ide rest ih =>
    intro s ls s' h
    simp only [scanSplit] at h
    split at h
    next e hi => exact Except.noConfusion h
    next folders hi =>
      split at h
      next e hf => exact Except.noConfusion h
      next d s1 hf =>
        split at h
        next e hs => exact Except.noConfusion h
        next ls2 s2 hs =>
          simp only [Except.ok.injEq, Prod.mk.injEq] at h
          obtain ⟨h1, h2⟩ := h
          rw [← h1]
          refine List.Forall₂.cons ?_ (ih s1 ls2 s2 hs)
          rw [scanFolders_eq_collect] at hf
          split at hf
          next e hc => exact Except.noConfusion hf
          next cps cs2 hc =>
            simp only [Except.ok.injEq, Prod.mk.injEq] at hf
            obtain ⟨hd, hs1⟩ := hf
            constructor
            · rw [← hd, List.map_map]
              have hk := dictFoldFrom_nodup cps [] (by simp)
              have hkp := dictFoldFrom_keys_paths cps [] (by simp)
              have he : (dictFoldFrom [] cps).map (Project.path ∘ Prod.snd) =
                  (dictFoldFrom [] cps).map Prod.fst :=
                List.map_congr_left (fun kv hkv => (hkp kv hkv).symm)
              rw [he]
              exact hk
            · intro p hp
              rw [← hd] at hp
              rcases List.mem_map.mp hp with ⟨kv, hkv, hsnd⟩
              rcases dictFoldFrom_mem cps [] kv hkv with hin | hin
              · have hsh := (collect_shape w ide folders s cps cs2 hc kv.2 hin).1
                rw [hsnd] at hsh
                exact hsh
              · simp at hin

theorem scanAll_ok_split (w : World) (ides : List Ide) (s : RunState)
    (out : List Project) (s' : RunState) (ls : List (List Project)) (s2 : RunState)
    (h : scanAll w ides s = .ok (out, s'))
    (hsplit : scanSplit w ides s = .ok (ls, s2)) :
    out = ls.flatten ∧ s' = s2 := by
  rw [scanAll_eq_split w ides s, hsplit] at h
  simp only [Except.ok.injEq, Prod.mk.injEq] at h
  exact ⟨h.1.symm, h.2.symm⟩

theorem le_sum_get (f : List Project → Nat) :
    ∀ (ls : List (List Project)) (j : Nat) (hj : j < ls.length),
      f (ls.get ⟨j, hj⟩) ≤ (ls.map f).sum := by
  intro ls
  induction ls with
  | nil => intro j hj; exact absurd hj (by simp)
  | cons l rest ih =>
    intro j hj
    cases j with
    | zero =>
      simp only [List.get, List.map_cons, List.sum_cons]
      exact Nat.le_add_right _ _
    | succ n =>
      simp only [List.get_cons_succ, List.map_cons, List.sum_cons]
      exact le_trans (ih n (by simpa using hj)) (Nat.le_add_left _ _)

theorem two_le_sum (f : List Project → Nat) :
    ∀ (ls : List (List Project)) (i j : Nat) (hi : i < ls.length)
      (hj : j < ls.length), i ≠ j →
      1 ≤ f (ls.get ⟨i, hi⟩) → 1 ≤ f (ls.get ⟨j, hj⟩) →
      2 ≤ (ls.map f).sum := by
  intro ls
  induction ls with
  | nil => intro i j hi; exact absurd hi (by simp)
  | cons l rest ih =>
    intro i j hi hj hne h1 h2
    cases i with
    | zero =>
      cases j with
      | zero => exact absurd rfl hne
      | succ n =>
        simp only [List.get, List.get_cons_succ] at h1 h2
        have hr : 1 ≤ (rest.map f).sum :=
          le_trans h2 (le_sum_get f rest n (by simpa using hj))
        simp only [List.map_cons, List.sum_cons]
        omega
    | succ m =>
      cases j with
      | zero =>
        simp only [List.get, List.get_cons_succ] at h1 h2
        have hr : 1 ≤ (rest.map f).sum :=
          le_trans h1 (le_sum_get f rest m (by simpa using hi))
        simp only [List.map_cons, List.sum_cons]
        omega
      | succ n =>
        simp only [List.get_cons_succ] at h1 h2
        have hr : 2 ≤ (rest.map f).sum :=
          ih m n (by simpa using hi) (by simpa using hj) (by omega) h1 h2
        simp only [List.map_cons, List.sum_cons]
        omega

theorem ideList_toolIds_distinct :
    ∀ (i j : Fin ideList.length), i.val ≠ j.val →
      (ideList.get i).info.tool_id ≠ (ideList.get j).info.tool_id := by decide

/-- C3 counterexample: on a machine whose launcher state assigns
PhpStorm and Rider the same channel id, the path H/p1 (reported under
both kinds) appears twice in the final output, each entry with a single
open action; the tool keys differ but the channel identifiers are
equal, refuting the claim that each entry carries a different channel
identifier. -/
theorem claim_C3_counterexample :
    ((projectsOf wShared).filter (fun p => p.path == "H/p1")).map
        (fun p => p.new_open_items.map (fun i => (i.tool_id, i.channel_id))) =
      [[("PhpStorm", "ch")], [("Rider", "ch")]] := rfl

/-- C3 (amended): the final output is the concatenation of the
per-kind lists; within each kind paths are distinct and every project
carries exactly one open action, whose tool key is that kind's; open
actions of entries coming from two different kinds always have
different tool keys (their channel identifiers are each kind's own and
need not differ); and a path reported by two different kinds yields at
least two separate entries in the output. -/
theorem claim_C3 (w : World) (out : List Project) (j : JVal) (sf : RunState)
    (ls : List (List Project)) (s2 : RunState)
    (hm : mainRun w = .ok (out, j, sf))
    (hsplit : scanSplit w ideList RunState.init = .ok (ls, s2)) :
    out = ls.flatten ∧
    List.Forall₂ (fun (ide : Ide) (l : List Project) =>
      (l.map Project.path).Nodup ∧
      ∀ p ∈ l, p.new_open_items = [⟨ide.info.tool_id, p.default_new_open_item⟩])
      ideList ls ∧
    (∀ (i1 i2 : Fin ls.length), i1.val ≠ i2.val →
      ∀ p1 ∈ ls.get i1, ∀ p2 ∈ ls.get i2,
        ∀ a1 ∈ p1.new_open_items, ∀ a2 ∈ p2.new_open_items,
          a1.tool_id ≠ a2.tool_id) ∧
    ∀ (i1 i2 : Fin ls.length) (q : String), i1.val ≠ i2.val →
      q ∈ (ls.get i1).map Project.path →
      q ∈ (ls.get i2).map Project.path →
      2 ≤ (out.filter (fun p => p.path == q)).length := by
  have hforall := scanSplit_props w ideList RunState.init ls s2 hsplit
  obtain ⟨hscan, hj⟩ := mainRun_inv w out j sf hm
  obtain ⟨hout, hsf⟩ :=
    scanAll_ok_split w ideList RunState.init out sf ls s2 hscan hsplit
  have hlen : ideList.length = ls.length := hforall.length_eq
  refine ⟨hout, hforall, ?_, ?_⟩
  · intro i1 i2 hne p1 hp1 p2 hp2 a1 ha1 a2 ha2
    have hlt1 : i1.val < ideList.length := by rw [hlen]; exact i1.isLt
    have hlt2 : i2.val < ideList.length := by rw [hlen]; exact i2.isLt
    have h1 := (hforall.get hlt1 i1.isLt).2 p1 hp1
    have h2 := (hforall.get hlt2 i2.isLt).2 p2 hp2
    rw [h1] at ha1
    rw [h2] at ha2
    simp only [List.mem_singleton] at ha1 ha2
    rw [ha1, ha2]
    exact ideList_toolIds_distinct ⟨i1.val, hlt1⟩ ⟨i2.val, hlt2⟩ hne
  · intro i1 i2 q hne hq1 hq2
    rw [hout, ← List.countP_eq_length_filter, List.countP_flatten]
    rcases List.mem_map.mp hq1 with ⟨p1, hp1, hpq1⟩
    rcases List.mem_map.mp hq2 with ⟨p2, hp2, hpq2⟩
    refine two_le_sum (List.countP (fun p => p.path == q)) ls i1.val i2.val
      i1.isLt i2.isLt hne ?_ ?_
    · exact List.countP_pos_iff.mpr ⟨p1, hp1, by simp [hpq1]⟩
    · exact List.countP_pos_iff.mpr ⟨p2, hp2, by simp [hpq2]⟩

/-- C3 witness: on the shared-channel machine the path H/p1 is
reported by the PhpStorm kind (index 0) and the Rider kind (index 1),
and the final output indeed contains at least two entries for it. -/
theorem claim_C3_witness :
    2 ≤ ((projectsOf wShared).filter (fun p => p.path == "H/p1")).length := by
  have h := claim_C3 wShared (projectsOf wShared) (jsonOf wShared) (stateOf wShared)
    (splitOk wShared).1 (splitOk wShared).2 rfl rfl
  exact h.2.2.2 ⟨0, by decide⟩ ⟨1, by decide⟩ "H/p1" (by decide) (by decide)
    (by decide)
